import Mathlib

/-!
Shallow embedding of the `explainit` frontend's tensor-to-visualization
pipeline (`src/frontend/src/components/AttentionViewer.tsx`,
`src/frontend/src/components/HiddenStateExplorer.tsx`,
`src/frontend/src/app/page.tsx`).

Modelling conventions:
* JavaScript `number` is modelled by `ℚ` in the attention-viewer and page
  modules (all operations there are field operations, so `ℚ` keeps
  everything decidable) and by `ℝ` in the hidden-state module (whose
  `Math.sqrt` has no exact rational counterpart).
* A JS array indexing expression `a[i]` that can miss is modelled with
  `List.get?`; the optional-chaining / `?? d` idioms become `Option.bind`
  and `Option.getD`.
* React render output is modelled as a pure value describing which branch
  of the JSX renders; `console.warn` is modelled as a `Bool` flag computed
  by the same condition the source tests.
-/

namespace ExplainIt

/-! ### Tokenizer (`simpleTokenize`, AttentionViewer.tsx lines 9-14 and
HiddenStateExplorer.tsx lines 9-12; both files define the identical function). -/

/-- Character class matched by the `\s` of the splitting regex (common
whitespace; the claims only exercise the space character). -/
def isTokenWhitespace (c : Char) : Bool :=
  c = ' ' || c = '\t' || c = '\n' || c = '\r' || c = '\x0b' || c = '\x0c'

/-- The fixed punctuation set `[.,;:!?]` of the splitting regex. -/
def isTokenPunct (c : Char) : Bool :=
  c = '.' || c = ',' || c = ';' || c = ':' || c = '!' || c = '?'

/-- Character-level rendering of
`text.split(/\s+|(?=[.,;:!?])|(?<=[.,;:!?])/g).filter(token => token.trim() !== '')`:
the regex splits at runs of whitespace (consumed) and at the zero-width
boundaries immediately before and after each punctuation character, and the
filter then drops fragments that are empty after trimming.  Equivalently, a
left-to-right scan in which a whitespace character ends the current
fragment, a punctuation character ends the current fragment and is emitted
as its own one-character token, and any other character extends the current
fragment; only non-empty fragments are emitted.  `acc` holds the current
fragment's characters in reverse. -/
def tokenizeChars (acc : List Char) : List Char → List String
  | [] => if acc.isEmpty then [] else [String.mk acc.reverse]
  | c :: rest =>
    if isTokenWhitespace c then
      (if acc.isEmpty then [] else [String.mk acc.reverse]) ++ tokenizeChars [] rest
    else if isTokenPunct c then
      (if acc.isEmpty then [] else [String.mk acc.reverse])
        ++ [String.mk [c]] ++ tokenizeChars [] rest
    else
      tokenizeChars (c :: acc) rest

/-- `simpleTokenize` of both components: `if (!text) return [];` (the empty
string is falsy) followed by the regex split-and-filter above. -/
def simpleTokenize (text : String) : List String :=
  if text = "" then [] else tokenizeChars [] text.toList

/-! ### AttentionViewer (`AttentionViewer.tsx`).

Attention data is `number[][][][]`, indexed layer → head → query → key;
it is modelled as `List (List (List (List ℚ)))`. -/

/-- Attention tensor type: layers → heads → query positions → key positions. -/
abbrev AttentionData := List (List (List (List ℚ)))

/-- A single head's 2-D score matrix. -/
abbrev AttentionMatrix := List (List ℚ)

/-- Line 27: `const numHeads = attentionData[selectedLayer]?.length || 0;`
(`length` is a `Nat`, so `|| 0` only matters when the layer lookup misses). -/
def numHeadsAt (data : AttentionData) (layer : Nat) : Nat :=
  ((data[layer]?).map List.length).getD 0

/-- Line 39: `const currentAttentionMatrix = attentionData[selectedLayer]?.[selectedHead];`
An out-of-range index yields `undefined`, modelled as `none`. -/
def currentAttentionMatrix (data : AttentionData) (layer head : Nat) :
    Option AttentionMatrix :=
  (data[layer]?).bind (fun heads => heads[head]?)

/-- Lines 52-55: `getNormalizedScore(score, minScore, maxScore)` — returns
`0.5` when `maxScore === minScore` (avoiding division by zero), otherwise
`(score - minScore) / (maxScore - minScore)`. -/
def getNormalizedScore (score minS maxS : ℚ) : ℚ :=
  if maxS = minS then 1/2 else (score - minS) / (maxS - minS)

/-- `Math.min(...list)` on a non-empty list: the left fold of `min` over the
elements.  (On an empty spread JS yields `+Infinity`, which has no rational
counterpart; the `[]` case below is a placeholder never relied upon: every
claim that uses `minScore`/`maxScore` carries a non-emptiness hypothesis.) -/
def jsMinList : List ℚ → ℚ
  | [] => 0
  | x :: xs => xs.foldl min x

/-- `Math.max(...list)` on a non-empty list (see `jsMinList` for the `[]` case). -/
def jsMaxList : List ℚ → ℚ
  | [] => 1
  | x :: xs => xs.foldl max x

/-- Lines 60-65: `let minScore = 0; … if (currentAttentionMatrix) { minScore =
Math.min(...currentAttentionMatrix.flat()); … }` — the default `0` stands when
no matrix is selected. -/
def minScore (mat : Option AttentionMatrix) : ℚ :=
  match mat with
  | none => 0
  | some M => jsMinList M.flatten

/-- Lines 61-65: ditto for `maxScore`, default `1`. -/
def maxScore (mat : Option AttentionMatrix) : ℚ :=
  match mat with
  | none => 1
  | some M => jsMaxList M.flatten

/-- Line 130: `const score = currentAttentionMatrix[i]?.[j] ?? 0;` — a raw
score read defensively from the matrix, `0` when either index misses. -/
def cellScore (M : AttentionMatrix) (i j : Nat) : ℚ :=
  ((M[i]?.bind (fun row => row[j]?)).getD 0)

/-- Lines 123-146: the rendered heatmap body.  Both the row iteration and the
column iteration run over `displayTokens` (`displayTokens.map` at lines 123
and 128), so the grid is `nTokens × nTokens`; each cell carries
`(score, getNormalizedScore score minScore maxScore)` (lines 130-131). -/
def renderedTable (M : AttentionMatrix) (nTokens : Nat) : List (List (ℚ × ℚ)) :=
  (List.range nTokens).map (fun i =>
    (List.range nTokens).map (fun j =>
      (cellScore M i j,
       getNormalizedScore (cellScore M i j) (minScore (some M)) (maxScore (some M)))))

/-- Which branch of the component's JSX renders. -/
inductive ViewerOutput where
  /-- Lines 22-24: "Attention data is not available or is empty." -/
  | noData : ViewerOutput
  /-- Lines 103-105: "Select a layer/head to view attention, or prompt seems
  empty." — shown when the matrix lookup missed or the prompt has no tokens. -/
  | placeholder : ViewerOutput
  /-- Lines 107-150: the heatmap table, with its grid of
  `(rawScore, intensity)` cells. -/
  | table : List (List (ℚ × ℚ)) → ViewerOutput
  deriving DecidableEq

/-- The component's render result: line 22 early-returns on empty data;
line 103 renders the placeholder exactly when `!currentAttentionMatrix ||
displayTokens.length === 0`; line 107 renders the table in the
complementary case. -/
def attentionRender (data : AttentionData) (prompt : String) (layer head : Nat) :
    ViewerOutput :=
  if data.isEmpty then .noData
  else
    match currentAttentionMatrix data layer head with
    | none => .placeholder
    | some M =>
      let tokens := simpleTokenize prompt
      if tokens.isEmpty then .placeholder
      else .table (renderedTable M tokens.length)

/-- Lines 41-49: the non-fatal `console.warn` diagnostic fires when
`!currentAttentionMatrix || currentAttentionMatrix.length === 0 ||
currentAttentionMatrix.length !== displayTokens.length` (and the component
then proceeds; nothing is thrown).  Line 22's early return means the check
is only reached when the data is non-empty. -/
def mismatchWarning (data : AttentionData) (prompt : String) (layer head : Nat) :
    Bool :=
  if data.isEmpty then false
  else
    match currentAttentionMatrix data layer head with
    | none => true
    | some M => M.length == 0 || M.length != (simpleTokenize prompt).length

/-- Number of rendered heatmap rows (0 for the non-table outputs). -/
def outputRows : ViewerOutput → Nat
  | .table cells => cells.length
  | _ => 0

/-- Lines 17-18 hold the component state `(selectedLayer, selectedHead)`. -/
structure AVState where
  selectedLayer : Nat
  selectedHead : Nat
  deriving DecidableEq

/-- Lines 29-33: `handleLayerChange` sets `selectedLayer` to the chosen value
and resets `selectedHead` to `0`; nothing of the previous state survives. -/
def handleLayerChange (_prev : AVState) (newLayer : Nat) : AVState :=
  { selectedLayer := newLayer, selectedHead := 0 }

/-! ### HiddenStateExplorer (`HiddenStateExplorer.tsx`).

Hidden-state data is `number[][][]`, indexed layer → token → dimension,
modelled as `List (List (List ℝ))`; `ℝ` because the component takes
`Math.sqrt`. -/

/-- Hidden-state tensor type: layers → token positions → dimensions. -/
abbrev HiddenStateData := List (List (List ℝ))

/-- Line 40, inner reduce: `vector.reduce((sum, val) => sum + val * val, 0)` —
the sum of squared components. -/
def l2normSq (v : List ℝ) : ℝ :=
  v.foldl (fun sum val => sum + val * val) 0

/-- Line 40: `Math.sqrt(vector.reduce((sum, val) => sum + val * val, 0))`. -/
noncomputable def l2norm (v : List ℝ) : ℝ :=
  Real.sqrt (l2normSq v)

/-- Lines 37-43, the `forEach` loop unrolled: for the layer at position `L`
(the running `layerIndex`), if `layerData[selectedTokenIndex]` is present
(an array is truthy; an out-of-bounds read is `undefined`, hence falsy) push
`{ layer: L, l2norm }`, else push nothing and continue with the next layer. -/
noncomputable def chartDataAux (tok : Nat) : Nat → List (List (List ℝ)) → List (Nat × ℝ)
  | _, [] => []
  | L, layerData :: rest =>
    match layerData[tok]? with
    | some vector => (L, l2norm vector) :: chartDataAux tok (L + 1) rest
    | none => chartDataAux tok (L + 1) rest

/-- Lines 35-44: `chartData`, the per-layer L2-norm trajectory of the
selected token (empty when no token is selected, which we model by only
invoking it with a selected index). -/
noncomputable def chartData (tensor : HiddenStateData) (tok : Nat) : List (Nat × ℝ) :=
  chartDataAux tok 0 tensor

/-- Line 47: `const svgWidth = 500;`. -/
def svgWidth : ℝ := 500

/-- Line 48: `const svgHeight = 300;`. -/
def svgHeight : ℝ := 300

/-- Line 49: `const padding = 50;`. -/
def chartPadding : ℝ := 50

/-- Line 50: `const chartWidth = svgWidth - 2 * padding;`. -/
noncomputable def chartWidth : ℝ := svgWidth - 2 * chartPadding

/-- Line 51: `const chartHeight = svgHeight - 2 * padding;`. -/
noncomputable def chartHeight : ℝ := svgHeight - 2 * chartPadding

/-- Line 53: `chartData.length > 0 ? Math.max(...chartData.map(d => d.l2norm)) : 0`. -/
noncomputable def maxL2Norm (cd : List (Nat × ℝ)) : ℝ :=
  match cd.map Prod.snd with
  | [] => 0
  | x :: xs => xs.foldl max x

/-- Line 54: `chartData.length > 0 ? Math.min(...chartData.map(d => d.l2norm)) : 0`. -/
noncomputable def minL2Norm (cd : List (Nat × ℝ)) : ℝ :=
  match cd.map Prod.snd with
  | [] => 0
  | x :: xs => xs.foldl min x

/-- Lines 56-57: `getX(layerIndex) = padding + (layerIndex /
Math.max(1, hiddenStateData.length - 1)) * chartWidth`; `numLayers` is
`hiddenStateData.length`.  The subtraction happens in JS numbers, so it is
taken in `ℝ` (for `numLayers = 0` it is `-1`, and the guard clamps to `1`). -/
noncomputable def getX (numLayers : Nat) (layerIndex : ℝ) : ℝ :=
  chartPadding + (layerIndex / max 1 ((numLayers : ℝ) - 1)) * chartWidth

/-- Lines 59-60: `getY(l2norm) = padding + chartHeight - ((l2norm - minL2Norm)
/ Math.max(1, maxL2Norm - minL2Norm)) * chartHeight`, with `minL2Norm` and
`maxL2Norm` computed from the current `chartData` series. -/
noncomputable def getY (cd : List (Nat × ℝ)) (v : ℝ) : ℝ :=
  chartPadding + chartHeight - ((v - minL2Norm cd) / max 1 (maxL2Norm cd - minL2Norm cd)) * chartHeight

/-! ### Analysis page (`page.tsx`, `handleSubmit` lines 22-50).

The response payload is abstracted to a request tag (`Nat`): the model only
tracks whose data lands in the `results` slot. -/

/-- Lines 15-20: the page state touched by `handleSubmit` —
`results`, `isLoading`, `error`. -/
structure PageState where
  results : Option Nat
  isLoading : Bool
  error : Option String
  deriving DecidableEq

/-- The page's initial state (lines 18-20). -/
def initialPage : PageState :=
  { results := none, isLoading := false, error := none }

/-- The observable events of `handleSubmit`: issuing a request
(lines 23-26), an in-flight request resolving successfully (lines 42-43 and
48), and one rejecting (lines 44-46 and 48).  `resolveOk d` / `reject`
carry no request identity because the handler keeps none: whichever
response runs its continuation applies its effect to the shared state. -/
inductive PageEvent where
  | submit : PageEvent
  | resolveOk : Nat → PageEvent
  | reject : String → PageEvent
  deriving DecidableEq

/-- One `handleSubmit` step: `submit` runs `setIsLoading(true); setError(null);
setResults(null)`; `resolveOk d` runs `setResults(data)` then the `finally`
`setIsLoading(false)`; `reject msg` runs `setError(msg); setResults(null)`
then `setIsLoading(false)`.  No step consults any request token or
generation counter — the source has none. -/
def stepPage (s : PageState) : PageEvent → PageState
  | .submit => { results := none, isLoading := true, error := none }
  | .resolveOk d => { s with results := some d, isLoading := false }
  | .reject msg => { results := none, isLoading := false, error := some msg }

/-- A whole interaction: fold the steps over an event trace. -/
def runPage (s : PageState) (events : List PageEvent) : PageState :=
  events.foldl stepPage s

/-! ### Helper lemmas about `foldl min` / `foldl max` (the shape in which
`Math.min(...)` / `Math.max(...)` over a non-empty spread is modelled). -/

theorem foldl_min_le {α : Type _} [LinearOrder α] :
    ∀ (xs : List α) (x : α), ∀ y ∈ x :: xs, xs.foldl min x ≤ y := by
  intro xs
  induction xs with
  | nil =>
    intro x y hy
    simp only [List.mem_singleton] at hy
    simp [hy]
  | cons z zs ih =>
    intro x y hy
    simp only [List.foldl_cons]
    rcases List.mem_cons.mp hy with rfl | hy'
    · exact le_trans (ih (min y z) (min y z) (List.mem_cons_self _ _)) (min_le_left y z)
    · rcases List.mem_cons.mp hy' with rfl | hyz
      · exact le_trans (ih (min x y) (min x y) (List.mem_cons_self _ _)) (min_le_right x y)
      · exact ih (min x z) y (List.mem_cons_of_mem _ hyz)

theorem foldl_min_mem {α : Type _} [LinearOrder α] :
    ∀ (xs : List α) (x : α), xs.foldl min x ∈ x :: xs := by
  intro xs
  induction xs with
  | nil => intro x; simp
  | cons z zs ih =>
    intro x
    simp only [List.foldl_cons]
    rcases List.mem_cons.mp (ih (min x z)) with heq | hmem
    · rcases min_choice x z with h1 | h1
      · rw [heq, h1]; exact List.mem_cons_self _ _
      · rw [heq, h1]; exact List.mem_cons_of_mem _ (List.mem_cons_self _ _)
    · exact List.mem_cons_of_mem _ (List.mem_cons_of_mem _ hmem)

theorem le_foldl_max {α : Type _} [LinearOrder α] :
    ∀ (xs : List α) (x : α), ∀ y ∈ x :: xs, y ≤ xs.foldl max x := by
  intro xs
  induction xs with
  | nil =>
    intro x y hy
    simp only [List.mem_singleton] at hy
    simp [hy]
  | cons z zs ih =>
    intro x y hy
    simp only [List.foldl_cons]
    rcases List.mem_cons.mp hy with rfl | hy'
    · exact le_trans (le_max_left y z) (ih (max y z) (max y z) (List.mem_cons_self _ _))
    · rcases List.mem_cons.mp hy' with rfl | hyz
      · exact le_trans (le_max_right x y) (ih (max x y) (max x y) (List.mem_cons_self _ _))
      · exact ih (max x z) y (List.mem_cons_of_mem _ hyz)

theorem foldl_max_mem {α : Type _} [LinearOrder α] :
    ∀ (xs : List α) (x : α), xs.foldl max x ∈ x :: xs := by
  intro xs
  induction xs with
  | nil => intro x; simp
  | cons z zs ih =>
    intro x
    simp only [List.foldl_cons]
    rcases List.mem_cons.mp (ih (max x z)) with heq | hmem
    · rcases max_choice x z with h1 | h1
      · rw [heq, h1]; exact List.mem_cons_self _ _
      · rw [heq, h1]; exact List.mem_cons_of_mem _ (List.mem_cons_self _ _)
    · exact List.mem_cons_of_mem _ (List.mem_cons_of_mem _ hmem)

theorem minScore_le (M : AttentionMatrix) :
    ∀ v ∈ M.flatten, minScore (some M) ≤ v := by
  intro v hv
  simp only [minScore]
  rcases hflat : M.flatten with _ | ⟨x, xs⟩
  · rw [hflat] at hv; cases hv
  · rw [hflat] at hv
    simpa [jsMinList] using foldl_min_le xs x v hv

theorem minScore_mem (M : AttentionMatrix) (h : M.flatten ≠ []) :
    minScore (some M) ∈ M.flatten := by
  simp only [minScore]
  rcases hflat : M.flatten with _ | ⟨x, xs⟩
  · exact absurd hflat h
  · simpa [jsMinList] using foldl_min_mem xs x

theorem le_maxScore (M : AttentionMatrix) :
    ∀ v ∈ M.flatten, v ≤ maxScore (some M) := by
  intro v hv
  simp only [maxScore]
  rcases hflat : M.flatten with _ | ⟨x, xs⟩
  · rw [hflat] at hv; cases hv
  · rw [hflat] at hv
    simpa [jsMaxList] using le_foldl_max xs x v hv

theorem maxScore_mem (M : AttentionMatrix) (h : M.flatten ≠ []) :
    maxScore (some M) ∈ M.flatten := by
  simp only [maxScore]
  rcases hflat : M.flatten with _ | ⟨x, xs⟩
  · exact absurd hflat h
  · simpa [jsMaxList] using foldl_max_mem xs x

/-! ### Claim theorems -/

/-- C4: for every attention matrix `M` containing at least two distinct
values, with `minScore`/`maxScore` computed over the whole flattened matrix,
the `minScore` cell normalizes to intensity `0`, the `maxScore` cell to `1`,
and every cell whose raw score is a value of `M` gets intensity
`(score - minScore) / (maxScore - minScore)`, which lies in `[0, 1]`. -/
theorem minmax_normalization_bounds (M : AttentionMatrix) (a b : ℚ)
    (ha : a ∈ M.flatten) (hb : b ∈ M.flatten) (hab : a ≠ b) :
    getNormalizedScore (minScore (some M)) (minScore (some M)) (maxScore (some M)) = 0 ∧
    getNormalizedScore (maxScore (some M)) (minScore (some M)) (maxScore (some M)) = 1 ∧
    ∀ v ∈ M.flatten,
      getNormalizedScore v (minScore (some M)) (maxScore (some M))
        = (v - minScore (some M)) / (maxScore (some M) - minScore (some M)) ∧
      0 ≤ getNormalizedScore v (minScore (some M)) (maxScore (some M)) ∧
      getNormalizedScore v (minScore (some M)) (maxScore (some M)) ≤ 1 := by
  have hlt : minScore (some M) < maxScore (some M) := by
    rcases lt_or_le (minScore (some M)) (maxScore (some M)) with h | h
    · exact h
    · exact absurd
        (le_antisymm
          (le_trans (le_maxScore M a ha) (le_trans h (minScore_le M b hb)))
          (le_trans (le_maxScore M b hb) (le_trans h (minScore_le M a ha))))
        hab
  have hdne : maxScore (some M) ≠ minScore (some M) := ne_of_gt hlt
  have hsub : maxScore (some M) - minScore (some M) ≠ 0 := sub_ne_zero.mpr hdne
  have hsubpos : 0 < maxScore (some M) - minScore (some M) := sub_pos.mpr hlt
  refine ⟨?_, ?_, ?_⟩
  · simp [getNormalizedScore, hdne]
  · simp [getNormalizedScore, hdne, div_self hsub]
  · intro v hv
    refine ⟨by simp [getNormalizedScore, hdne], ?_, ?_⟩
    · simp only [getNormalizedScore, if_neg hdne]
      exact div_nonneg (sub_nonneg.mpr (minScore_le M v hv)) (le_of_lt hsubpos)
    · simp only [getNormalizedScore, if_neg hdne]
      exact (div_le_one hsubpos).mpr (sub_le_sub_right (le_maxScore M v hv) _)

/-- Witness for C4 at the concrete matrix `[[0, 1]]`. -/
theorem minmax_normalization_bounds_witness :
    getNormalizedScore (minScore (some [[0, 1]])) (minScore (some [[0, 1]]))
        (maxScore (some [[0, 1]])) = 0 ∧
    getNormalizedScore (maxScore (some [[0, 1]])) (minScore (some [[0, 1]]))
        (maxScore (some [[0, 1]])) = 1 := by
  have h := minmax_normalization_bounds [[0, 1]] 0 1 (by decide) (by decide) (by decide)
  exact ⟨h.1, h.2.1⟩

/-- C5: on an attention matrix all of whose values are equal
(`maxScore == minScore`), every cell's intensity is exactly `1/2`, the
degenerate-range branch of `getNormalizedScore` avoiding the division. -/
theorem equal_values_normalize_to_half (M : AttentionMatrix)
    (hall : ∀ x ∈ M.flatten, ∀ y ∈ M.flatten, x = y) :
    (M.flatten ≠ [] → maxScore (some M) = minScore (some M)) ∧
    ∀ v ∈ M.flatten,
      getNormalizedScore v (minScore (some M)) (maxScore (some M)) = 1/2 := by
  constructor
  · intro hne
    exact hall _ (maxScore_mem M hne) _ (minScore_mem M hne)
  · intro v hv
    have hne : M.flatten ≠ [] := List.ne_nil_of_mem hv
    have heq : maxScore (some M) = minScore (some M) :=
      hall _ (maxScore_mem M hne) _ (minScore_mem M hne)
    simp [getNormalizedScore, heq]

/-- Witness for C5 at the claim's example matrix `[[1/2, 1/2], [1/2, 1/2]]`. -/
theorem equal_values_normalize_to_half_witness :
    maxScore (some [[1/2, 1/2], [1/2, 1/2]]) = minScore (some [[1/2, 1/2], [1/2, 1/2]]) ∧
    getNormalizedScore (1/2) (minScore (some [[1/2, 1/2], [1/2, 1/2]]))
        (maxScore (some [[1/2, 1/2], [1/2, 1/2]])) = 1/2 := by
  have h := equal_values_normalize_to_half [[1/2, 1/2], [1/2, 1/2]]
    (by
      intro x hx y hy
      simp only [List.flatten, List.append_nil, List.cons_append, List.nil_append,
        List.mem_cons, List.not_mem_nil, or_false] at hx hy
      rcases hx with rfl | rfl | rfl | rfl <;> rcases hy with rfl | rfl | rfl | rfl <;> rfl)
  refine ⟨h.1 (by simp), h.2 (1/2) (by simp)⟩

/-- C8: `simpleTokenize` is a deterministic pure function (in this
functional embedding, trivially so); the empty string yields the empty
sequence, and `"Hello, world!"` yields exactly
`["Hello", ",", "world", "!"]` in that order. -/
theorem tokenize_deterministic_and_scenarios :
    (∀ s : String, simpleTokenize s = simpleTokenize s) ∧
    simpleTokenize "" = [] ∧
    simpleTokenize "Hello, world!" = ["Hello", ",", "world", "!"] :=
  ⟨fun _ => rfl, by decide, by decide⟩

/-- C10: `handleLayerChange` always resets the selected head to `0` while
adopting the new layer, so afterwards the selection indexes an existing
head of the newly selected layer whenever that layer has at least one head. -/
theorem layer_change_resets_head (s : AVState) (newLayer : Nat) (data : AttentionData) :
    (handleLayerChange s newLayer).selectedHead = 0 ∧
    (handleLayerChange s newLayer).selectedLayer = newLayer ∧
    (1 ≤ numHeadsAt data newLayer →
      (handleLayerChange s newLayer).selectedHead < numHeadsAt data newLayer) :=
  ⟨rfl, rfl, fun h => h⟩

/-- Witness for C10 at state `(3, 7)`, new layer `0`, and a one-layer
one-head tensor. -/
theorem layer_change_resets_head_witness :
    (handleLayerChange ⟨3, 7⟩ 0).selectedHead = 0 ∧
    (handleLayerChange ⟨3, 7⟩ 0).selectedHead < numHeadsAt [[[[1]]]] 0 := by
  have h := layer_change_resets_head ⟨3, 7⟩ 0 [[[[1]]]]
  exact ⟨h.1, h.2.2 (by decide)⟩

/-- C3 (code bug): `handleSubmit` keeps no request generation counter, so a
superseded in-flight response that resolves later overwrites newer state.
Trace: request 1 is submitted, request 2 is submitted before 1 resolves,
request 2's response (data `2`) arrives, then request 1's stale response
(data `1`) arrives late — the displayed result set ends as request 1's
data, not the most recently issued request's. -/
theorem stale_response_overwrites_newer :
    runPage initialPage
        [PageEvent.submit, PageEvent.submit, PageEvent.resolveOk 2, PageEvent.resolveOk 1]
      = { results := some 1, isLoading := false, error := none } := by
  decide

/-- C1 (counterexample): a 1-layer 1-head tensor whose matrix is 4×4 while
the prompt `"a b c d e"` tokenizes to 5 tokens.  The component does surface
the non-fatal diagnostic and keeps rendering, but the heatmap pairs
token indices with tensor indices over the full token range: it renders
5 rows (indices 0..4, the missing tensor entries read as score 0), not the
`min(tokenCount, tensorSeqLen) = 4` rows (indices 0..3) the claim states. -/
theorem mismatch_render_overruns_min_cex :
    mismatchWarning [[[[0, 0, 0, 0], [0, 0, 0, 0], [0, 0, 0, 0], [0, 0, 0, 0]]]]
        "a b c d e" 0 0 = true ∧
    attentionRender [[[[0, 0, 0, 0], [0, 0, 0, 0], [0, 0, 0, 0], [0, 0, 0, 0]]]]
        "a b c d e" 0 0
      = ViewerOutput.table
          (renderedTable [[0, 0, 0, 0], [0, 0, 0, 0], [0, 0, 0, 0], [0, 0, 0, 0]] 5) ∧
    outputRows
        (attentionRender [[[[0, 0, 0, 0], [0, 0, 0, 0], [0, 0, 0, 0], [0, 0, 0, 0]]]]
          "a b c d e" 0 0) = 5 ∧
    outputRows
        (attentionRender [[[[0, 0, 0, 0], [0, 0, 0, 0], [0, 0, 0, 0], [0, 0, 0, 0]]]]
          "a b c d e" 0 0)
      ≠ min (simpleTokenize "a b c d e").length 4 :=
  ⟨by decide, rfl, by decide, by decide⟩

/-- C1 (amended): whenever a matrix is selected and the prompt tokenizes to
at least one token, the component renders the heatmap (it never fails),
warning non-fatally when the matrix's sequence length differs from the
token count; the grid is `tokenCount × tokenCount` — pairing over all token
indices rather than stopping at `min(tokenCount, tensorSeqLen)` — and every
cell whose indices fall outside the matrix reads raw score `0`. -/
theorem mismatch_lenient_render (data : AttentionData) (prompt : String)
    (layer head : Nat) (M : AttentionMatrix)
    (hM : currentAttentionMatrix data layer head = some M)
    (htok : simpleTokenize prompt ≠ []) :
    (M.length ≠ (simpleTokenize prompt).length →
        mismatchWarning data prompt layer head = true) ∧
    attentionRender data prompt layer head
      = ViewerOutput.table (renderedTable M (simpleTokenize prompt).length) ∧
    (renderedTable M (simpleTokenize prompt).length).length
      = (simpleTokenize prompt).length ∧
    (∀ row ∈ renderedTable M (simpleTokenize prompt).length,
        row.length = (simpleTokenize prompt).length) ∧
    (∀ i j, M.length ≤ i → cellScore M i j = 0) := by
  rcases data with _ | ⟨d, ds⟩
  · simp [currentAttentionMatrix] at hM
  refine ⟨?_, ?_, ?_, ?_, ?_⟩
  · intro hne
    simp [mismatchWarning, hM, hne]
  · rcases ht : simpleTokenize prompt with _ | ⟨t, ts⟩
    · exact absurd ht htok
    · simp [attentionRender, hM, ht]
  · simp [renderedTable]
  · intro row hrow
    simp only [renderedTable, List.mem_map] at hrow
    obtain ⟨i, _, rfl⟩ := hrow
    simp
  · intro i j hi
    simp [cellScore, List.getElem?_eq_none hi]

/-- Witness for C1's amended theorem at the counterexample input. -/
theorem mismatch_lenient_render_witness :
    mismatchWarning [[[[0, 0, 0, 0], [0, 0, 0, 0], [0, 0, 0, 0], [0, 0, 0, 0]]]]
        "a b c d e" 0 0 = true ∧
    attentionRender [[[[0, 0, 0, 0], [0, 0, 0, 0], [0, 0, 0, 0], [0, 0, 0, 0]]]]
        "a b c d e" 0 0
      = ViewerOutput.table
          (renderedTable [[0, 0, 0, 0], [0, 0, 0, 0], [0, 0, 0, 0], [0, 0, 0, 0]]
            (simpleTokenize "a b c d e").length) ∧
    cellScore [[0, 0, 0, 0], [0, 0, 0, 0], [0, 0, 0, 0], [0, 0, 0, 0]] 4 0 = 0 := by
  have h := mismatch_lenient_render
    [[[[0, 0, 0, 0], [0, 0, 0, 0], [0, 0, 0, 0], [0, 0, 0, 0]]]] "a b c d e" 0 0
    [[0, 0, 0, 0], [0, 0, 0, 0], [0, 0, 0, 0], [0, 0, 0, 0]] (by decide) (by decide)
  exact ⟨h.1 (by decide), h.2.1, h.2.2.2.2 4 0 (by decide)⟩

/-- C2 (counterexample): on a tensor with `numLayers = 1`, selecting layer 5
does not raise an `IndexOutOfRange` error: the lookup yields no matrix and
the component renders its ordinary placeholder message — the very output it
produces for a perfectly valid selection with an empty prompt — so no error
is signaled at all. -/
theorem out_of_range_layer_no_error_cex :
    currentAttentionMatrix [[[[1]]]] 5 0 = none ∧
    attentionRender [[[[1]]]] "hi" 5 0 = ViewerOutput.placeholder ∧
    attentionRender [[[[1]]]] "hi" 5 0 = attentionRender [[[[1]]]] "" 0 0 := by
  decide

/-- C2 (amended): a layer index `≥ numLayers` or a head index
`≥ numHeads(layer)` makes the matrix lookup miss (`none`); the viewer then
renders the normal placeholder branch — no `IndexOutOfRange` error is
signaled, and no clamping or substitution of another matrix occurs. -/
theorem out_of_range_selection_no_error (data : AttentionData) (prompt : String)
    (layer head : Nat)
    (h : data.length ≤ layer ∨ numHeadsAt data layer ≤ head) :
    currentAttentionMatrix data layer head = none ∧
    (data ≠ [] → attentionRender data prompt layer head = ViewerOutput.placeholder) := by
  have hnone : currentAttentionMatrix data layer head = none := by
    rcases h with h | h
    · simp [currentAttentionMatrix, List.getElem?_eq_none h]
    · rcases hget : data[layer]? with _ | heads
      · simp [currentAttentionMatrix, hget]
      · have hlen : heads.length ≤ head := by simpa [numHeadsAt, hget] using h
        simp [currentAttentionMatrix, hget, List.getElem?_eq_none hlen]
  refine ⟨hnone, fun hne => ?_⟩
  rcases data with _ | ⟨d, ds⟩
  · exact absurd rfl hne
  · simp [attentionRender, hnone]

/-- Witness for C2's amended theorem: head index 9 on a 1-head layer. -/
theorem out_of_range_selection_no_error_witness :
    currentAttentionMatrix [[[[1]]]] 0 9 = none ∧
    attentionRender [[[[1]]]] "a" 0 9 = ViewerOutput.placeholder := by
  have h := out_of_range_selection_no_error [[[[1]]]] "a" 0 9 (Or.inr (by decide))
  exact ⟨h.1, h.2 (by decide)⟩

/-! ### Lemmas about `l2normSq` and the trajectory loop. -/

theorem foldl_addsq (v : List ℝ) : ∀ a : ℝ,
    v.foldl (fun sum val => sum + val * val) a = a + l2normSq v := by
  induction v with
  | nil => intro a; simp [l2normSq]
  | cons x xs ih =>
    intro a
    simp only [l2normSq, List.foldl_cons]
    rw [ih (a + x * x), ih (0 + x * x)]
    ring

theorem l2normSq_cons (x : ℝ) (xs : List ℝ) :
    l2normSq (x :: xs) = x * x + l2normSq xs := by
  simp only [l2normSq, List.foldl_cons]
  rw [foldl_addsq]
  simp only [l2normSq]
  ring

theorem l2normSq_nonneg (v : List ℝ) : 0 ≤ l2normSq v := by
  induction v with
  | nil => simp [l2normSq]
  | cons x xs ih =>
    rw [l2normSq_cons]
    nlinarith [mul_self_nonneg x]

theorem l2normSq_eq_zero_iff (v : List ℝ) :
    l2normSq v = 0 ↔ ∀ x ∈ v, x = 0 := by
  induction v with
  | nil => simp [l2normSq]
  | cons x xs ih =>
    rw [l2normSq_cons]
    constructor
    · intro h
      have hx : x * x = 0 ∧ l2normSq xs = 0 := by
        constructor <;> nlinarith [mul_self_nonneg x, l2normSq_nonneg xs]
      intro y hy
      rcases List.mem_cons.mp hy with rfl | hy'
      · exact mul_self_eq_zero.mp hx.1
      · exact ih.mp hx.2 y hy'
    · intro h
      rw [h x (List.mem_cons_self _ _),
        ih.mpr (fun y hy => h y (List.mem_cons_of_mem _ hy))]
      ring

theorem getElem?_some_lt {α : Type _} (l : List α) (n : Nat) (a : α)
    (h : l[n]? = some a) : n < l.length := by
  by_contra hc
  push_neg at hc
  rw [List.getElem?_eq_none hc] at h
  cases h

theorem chartDataAux_fst_ge (tok : Nat) :
    ∀ (t : List (List (List ℝ))) (L : Nat), ∀ p ∈ chartDataAux tok L t, L ≤ p.1 := by
  intro t
  induction t with
  | nil => intro L p hp; simp [chartDataAux] at hp
  | cons ld rest ih =>
    intro L p hp
    rcases hg : ld[tok]? with _ | v
    · simp only [chartDataAux, hg] at hp
      exact le_trans (Nat.le_succ L) (ih (L + 1) p hp)
    · simp only [chartDataAux, hg] at hp
      rcases List.mem_cons.mp hp with rfl | hp'
      · simp
      · exact le_trans (Nat.le_succ L) (ih (L + 1) p hp')

theorem chartDataAux_fst_pairwise (tok : Nat) :
    ∀ (t : List (List (List ℝ))) (L : Nat),
      ((chartDataAux tok L t).map Prod.fst).Pairwise (· < ·) := by
  intro t
  induction t with
  | nil => intro L; simp [chartDataAux]
  | cons ld rest ih =>
    intro L
    rcases hg : ld[tok]? with _ | v
    · simp only [chartDataAux, hg]
      exact ih (L + 1)
    · simp only [chartDataAux, hg, List.map_cons]
      refine List.Pairwise.cons ?_ (ih (L + 1))
      intro y hy
      simp only [List.mem_map] at hy
      obtain ⟨p, hp, rfl⟩ := hy
      exact lt_of_lt_of_le (Nat.lt_succ_self L) (chartDataAux_fst_ge tok rest (L + 1) p hp)

theorem chartDataAux_length (tok : Nat) :
    ∀ (t : List (List (List ℝ))), (∀ ld ∈ t, tok < ld.length) →
      ∀ L, (chartDataAux tok L t).length = t.length := by
  intro t
  induction t with
  | nil => intro _ L; simp [chartDataAux]
  | cons ld rest ih =>
    intro h L
    rcases hg : ld[tok]? with _ | v
    · have hle : ld.length ≤ tok := by
        by_contra hc
        push_neg at hc
        rw [List.getElem?_eq_getElem hc] at hg
        cases hg
      have := h ld (List.mem_cons_self _ _)
      omega
    · simp only [chartDataAux, hg, List.length_cons]
      rw [ih (fun x hx => h x (List.mem_cons_of_mem _ hx)) (L + 1)]

theorem chartDataAux_mem_fst_iff (tok : Nat) :
    ∀ (t : List (List (List ℝ))) (L n : Nat),
      (L + n ∈ (chartDataAux tok L t).map Prod.fst ↔
        ∃ ld, t[n]? = some ld ∧ tok < ld.length) := by
  intro t
  induction t with
  | nil => intro L n; simp [chartDataAux]
  | cons ld rest ih =>
    intro L n
    rcases hg : ld[tok]? with _ | v
    · have hle : ld.length ≤ tok := by
        by_contra hc
        push_neg at hc
        rw [List.getElem?_eq_getElem hc] at hg
        cases hg
      cases n with
      | zero =>
        simp only [chartDataAux, hg]
        constructor
        · intro hmem
          exfalso
          simp only [List.mem_map] at hmem
          obtain ⟨p, hp, hfst⟩ := hmem
          have := chartDataAux_fst_ge tok rest (L + 1) p hp
          omega
        · rintro ⟨ld', hld', hlt⟩
          simp only [List.getElem?_cons_zero, Option.some.injEq] at hld'
          subst hld'
          omega
      | succ m =>
        simp only [chartDataAux, hg]
        rw [show L + (m + 1) = (L + 1) + m from by omega, ih (L + 1) m]
        simp
    · cases n with
      | zero =>
        have hlt : tok < ld.length := getElem?_some_lt ld tok v hg
        simp only [chartDataAux, hg, List.map_cons]
        constructor
        · intro _
          exact ⟨ld, by simp, hlt⟩
        · intro _
          exact List.mem_cons.mpr (Or.inl (by omega))
      | succ m =>
        simp only [chartDataAux, hg, List.map_cons]
        constructor
        · intro hmem
          rcases List.mem_cons.mp hmem with heq | hmem'
          · omega
          · rw [show L + (m + 1) = (L + 1) + m from by omega] at hmem'
            simpa using (ih (L + 1) m).mp hmem'
        · rintro ⟨ld', hld', hlt⟩
          refine List.mem_cons.mpr (Or.inr ?_)
          rw [show L + (m + 1) = (L + 1) + m from by omega]
          exact (ih (L + 1) m).mpr ⟨ld', by simpa using hld', hlt⟩

/-- C6: the trajectory `chartData` is ordered by strictly increasing layer
index; its length equals the number of layers whenever the token index is
in-bounds on every layer's token axis; and in general the layers appearing
in it are exactly those whose token axis contains the token index (the
others are skipped while the computation still succeeds). -/
theorem trajectory_ordered_and_skips (tensor : HiddenStateData) (tok : Nat) :
    ((chartData tensor tok).map Prod.fst).Pairwise (· < ·) ∧
    ((∀ ld ∈ tensor, tok < ld.length) →
      (chartData tensor tok).length = tensor.length) ∧
    (∀ L : Nat, L ∈ (chartData tensor tok).map Prod.fst ↔
      ∃ ld, tensor[L]? = some ld ∧ tok < ld.length) := by
  refine ⟨chartDataAux_fst_pairwise tok tensor 0,
    fun h => chartDataAux_length tok tensor h 0, fun L => ?_⟩
  have h := chartDataAux_mem_fst_iff tok tensor 0 L
  simpa using h

/-- Witness for C6 at the 3-layer tensor of the spec's scenario, token 0:
the trajectory has one point per layer. -/
theorem trajectory_ordered_and_skips_witness :
    (chartData ([[[1, 0]], [[3, 4]], [[0, 0]]] : HiddenStateData) 0).length = 3 := by
  have h := (trajectory_ordered_and_skips ([[[1, 0]], [[3, 4]], [[0, 0]]] : HiddenStateData) 0).2.1
    (by
      intro ld hld
      simp only [List.mem_cons, List.not_mem_nil, or_false] at hld
      rcases hld with rfl | rfl | rfl <;> simp)
  simpa using h

/-- C9: the L2 norm of every hidden-state vector is nonnegative and vanishes
exactly on the all-zero vector; the spec's example vectors `[1,0]`, `[3,4]`,
`[0,0]` have norms `1`, `5`, `0`. -/
theorem l2norm_nonneg_and_zero_iff :
    (∀ v : List ℝ, 0 ≤ l2norm v ∧ (l2norm v = 0 ↔ ∀ x ∈ v, x = 0)) ∧
    l2norm [1, 0] = 1 ∧ l2norm [3, 4] = 5 ∧ l2norm [0, 0] = 0 := by
  refine ⟨fun v => ⟨Real.sqrt_nonneg _, ?_⟩, ?_, ?_, ?_⟩
  · rw [l2norm, Real.sqrt_eq_zero (l2normSq_nonneg v)]
    exact l2normSq_eq_zero_iff v
  · have h : l2normSq [(1 : ℝ), 0] = 1 := by norm_num [l2normSq]
    rw [l2norm, h, Real.sqrt_one]
  · have h : l2normSq [(3 : ℝ), 4] = 25 := by norm_num [l2normSq]
    rw [l2norm, h, show (25 : ℝ) = 5 ^ 2 by norm_num,
      Real.sqrt_sq (by norm_num : (0 : ℝ) ≤ 5)]
  · have h : l2normSq [(0 : ℝ), 0] = 0 := by norm_num [l2normSq]
    rw [l2norm, h, Real.sqrt_zero]

/-- Witness for C9 at the concrete vector `[3, 4]`. -/
theorem l2norm_nonneg_and_zero_iff_witness :
    0 ≤ l2norm [3, 4] ∧ l2norm [3, 4] = 5 :=
  ⟨(l2norm_nonneg_and_zero_iff.1 [3, 4]).1, l2norm_nonneg_and_zero_iff.2.2.1⟩

/-! ### Lemmas for the coordinate mapper. -/

theorem minL2Norm_const (cd : List (Nat × ℝ)) (c : ℝ) (hne : cd ≠ [])
    (hall : ∀ p ∈ cd, p.2 = c) : minL2Norm cd = c := by
  rcases cd with _ | ⟨p, rest⟩
  · exact absurd rfl hne
  · simp only [minL2Norm, List.map_cons]
    have hc : ∀ y ∈ p.2 :: rest.map Prod.snd, y = c := by
      intro y hy
      rcases List.mem_cons.mp hy with rfl | hy'
      · exact hall p (List.mem_cons_self _ _)
      · obtain ⟨q, hq, rfl⟩ := List.mem_map.mp hy'
        exact hall q (List.mem_cons_of_mem _ hq)
    exact hc _ (foldl_min_mem (rest.map Prod.snd) p.2)

theorem maxL2Norm_const (cd : List (Nat × ℝ)) (c : ℝ) (hne : cd ≠ [])
    (hall : ∀ p ∈ cd, p.2 = c) : maxL2Norm cd = c := by
  rcases cd with _ | ⟨p, rest⟩
  · exact absurd rfl hne
  · simp only [maxL2Norm, List.map_cons]
    have hc : ∀ y ∈ p.2 :: rest.map Prod.snd, y = c := by
      intro y hy
      rcases List.mem_cons.mp hy with rfl | hy'
      · exact hall p (List.mem_cons_self _ _)
      · obtain ⟨q, hq, rfl⟩ := List.mem_map.mp hy'
        exact hall q (List.mem_cons_of_mem _ hq)
    exact hc _ (foldl_max_mem (rest.map Prod.snd) p.2)

/-- C7: the coordinate mapper's two `Math.max(1, …)` guards keep both
divisors positive; every in-range layer index lands at an x-coordinate
inside `[padding, width - padding]` (at `padding` itself for the
single-layer domain); and a constant-value series collapses to the baseline
y-coordinate `height - padding`, inside `[padding, height - padding]`. -/
theorem mapToPixels_degenerate_safe :
    (∀ n i : Nat, i < n →
      0 < max 1 ((n : ℝ) - 1) ∧
      chartPadding ≤ getX n i ∧ getX n i ≤ svgWidth - chartPadding) ∧
    getX 1 0 = chartPadding ∧
    (∀ (cd : List (Nat × ℝ)) (c : ℝ), cd ≠ [] → (∀ p ∈ cd, p.2 = c) →
      0 < max 1 (maxL2Norm cd - minL2Norm cd) ∧
      ∀ p ∈ cd, getY cd p.2 = svgHeight - chartPadding ∧
        chartPadding ≤ getY cd p.2 ∧ getY cd p.2 ≤ svgHeight - chartPadding) := by
  refine ⟨?_, ?_, ?_⟩
  · intro n i hin
    have hd : (0 : ℝ) < max 1 ((n : ℝ) - 1) :=
      lt_of_lt_of_le zero_lt_one (le_max_left _ _)
    have hile : (i : ℝ) ≤ max 1 ((n : ℝ) - 1) := by
      have h1 : (i : ℝ) + 1 ≤ (n : ℝ) := by exact_mod_cast Nat.succ_le_of_lt hin
      exact le_trans (by linarith) (le_max_right 1 _)
    have hq0 : (0 : ℝ) ≤ (i : ℝ) / max 1 ((n : ℝ) - 1) :=
      div_nonneg (Nat.cast_nonneg i) (le_of_lt hd)
    have hq1 : (i : ℝ) / max 1 ((n : ℝ) - 1) ≤ 1 := (div_le_one hd).mpr hile
    refine ⟨hd, ?_, ?_⟩
    · simp only [getX, chartWidth, svgWidth, chartPadding]
      nlinarith
    · simp only [getX, chartWidth, svgWidth, chartPadding]
      nlinarith
  · simp [getX]
  · intro cd c hne hall
    have hmin := minL2Norm_const cd c hne hall
    have hmax := maxL2Norm_const cd c hne hall
    have hd : (0 : ℝ) < max 1 (maxL2Norm cd - minL2Norm cd) :=
      lt_of_lt_of_le zero_lt_one (le_max_left _ _)
    refine ⟨hd, fun p hp => ?_⟩
    have hyeq : getY cd p.2 = svgHeight - chartPadding := by
      rw [getY, hmin, hmax, hall p hp]
      norm_num [chartHeight, svgHeight, chartPadding]
    exact ⟨hyeq, by rw [hyeq]; norm_num [svgHeight, chartPadding], le_of_eq hyeq⟩

/-- Witness for C7 at the single-layer domain and the constant one-point
series `[(0, 5)]`. -/
theorem mapToPixels_degenerate_safe_witness :
    chartPadding ≤ getX 1 0 ∧
    getY [(0, 5)] ((5 : ℝ)) = svgHeight - chartPadding := by
  have hA := mapToPixels_degenerate_safe.1 1 0 (by norm_num)
  have hC := mapToPixels_degenerate_safe.2.2 [((0 : Nat), (5 : ℝ))] 5
    (by simp) (by simp)
  refine ⟨by simpa using hA.2.1, (hC.2 (0, 5) (by simp)).1⟩

end ExplainIt
